import Mathlib

/-
Verification of the upload-completion pipeline of the e-document backend.

The embedding follows src/internal/app/upload/service.go (ProcessUploadComplete,
parsePath), src/internal/app/upload/handler.go (processCompletedUpload),
src/internal/domain/folder.go (Folder, Document, DocumentAttachment) and the
postgres repository in src/unnamed/part_012 (FindFolderByNameAndParent,
CreateFolder, CreateDocument, CreateAttachment).  The
relational store is a pure state (lists of rows plus an id allocator standing
for gen_random_uuid; database-generated uuids are modelled as
allocation-ordered naturals), a transaction is a working copy of that state
that is published on commit and discarded on rollback, and repository calls can be
made to fail through an oracle indexed by the order of the calls, which models
database I/O errors and concurrently committed rows.
-/

namespace EDocument

/-- domain.DocumentType (src/internal/domain/folder.go). -/
inductive DocumentType where
  | General
  | Barcode
  deriving DecidableEq, Repr

/-- domain.DocumentStatus (src/internal/domain/folder.go). -/
inductive DocumentStatus where
  | Draft
  | Pending
  | Approved
  | Rejected
  deriving DecidableEq, Repr

/-- domain.Folder.  Timestamps are dropped: nothing in the verified code reads
them. -/
structure Folder where
  id : Nat
  name : String
  path : String
  isRootFolder : Bool
  parentFolderID : Option Nat
  ownerID : Nat
  deriving DecidableEq, Repr

/-- domain.Document restricted to the fields the upload flow writes or the
claims read; the remaining fields (description, categoryID, barcode,
currentDepartmentID, timestamps) keep their zero values throughout the flow. -/
structure Document where
  id : Nat
  title : String
  type : DocumentType
  folderID : Option Nat
  registrantID : Option Nat
  status : DocumentStatus
  deriving DecidableEq, Repr

/-- domain.DocumentAttachment (timestamps dropped as above). -/
structure DocumentAttachment where
  id : Nat
  documentID : Nat
  fileName : String
  filePath : String
  fileSize : Int
  fileType : String
  version : Nat
  isCurrent : Bool
  uploadedBy : Option Nat
  deriving DecidableEq, Repr

/-- The relational state: the three tables touched by upload completion and
the id allocator. -/
structure DB where
  folders : List Folder
  documents : List Document
  attachments : List DocumentAttachment
  nextID : Nat
  deriving DecidableEq, Repr

def DB.empty : DB := { folders := [], documents := [], attachments := [], nextID := 0 }

/-- Outcome injected for one repository call: `ok` lets the call proceed on
the modelled state, `dbFail` makes the underlying database call fail with an
I/O error, and `uniqueRace` (meaningful for folder inserts only) makes the
insert hit the unique index idx_folders_unique_name because a concurrent
transaction committed the same (name, parent, owner) row after our lookup. -/
inductive OpOutcome where
  | ok
  | dbFail
  | uniqueRace
  deriving DecidableEq, Repr

/-- Fault oracle: outcome of the n-th database call of the run (0 = BeginTx,
then one index per repository call in program order, the last one = Commit). -/
abbrev Faults := Nat → OpOutcome

def noFaults : Faults := fun _ => OpOutcome.ok

/-- Errors surfaced by repository calls. -/
inductive RepoError where
  | dbError (op : Nat)
  | uniqueViolation
  deriving DecidableEq, Repr

/-- Errors returned by ProcessUploadComplete, one constructor per error path
of the source function. -/
inductive UploadError where
  | beginTxFailed
  | invalidPath (path : String)
  | repo (e : RepoError)
  | commitFailed
  deriving DecidableEq, Repr

deriving instance DecidableEq for Except

/-- The WHERE clause of postgresRepository.FindFolderByNameAndParent
(src/unnamed/part_012 lines 36-50): name equal, parent_folder_id equal —
IS NULL when the parent pointer is nil — and owner_id equal. -/
def FolderMatches (name : String) (parentID : Option Nat) (ownerID : Nat) (f : Folder) : Bool :=
  f.name == name && f.parentFolderID == parentID && f.ownerID == ownerID

/-- postgresRepository.FindFolderByNameAndParent (src/unnamed/part_012 lines
32-72): QueryRow over the folders table with the clause above; pgx.ErrNoRows
is turned into a nil folder with no error (none here), any other database
failure is an error.  The unique index idx_folders_unique_name
(src/migrations/000002) allows at most one matching row, so the first match
is the row QueryRow returns. -/
def FindFolderByNameAndParent (faults : Faults) (op : Nat) (db : DB) (name : String)
    (parentID : Option Nat) (ownerID : Nat) : Except RepoError (Option Folder) :=
  if faults op = OpOutcome.dbFail then Except.error (RepoError.dbError op)
  else Except.ok (db.folders.find? (FolderMatches name parentID ownerID))

/-- postgresRepository.CreateFolder (src/unnamed/part_012 lines 75-102): a
plain INSERT of the service-built row, with a fresh id from uuid.New()
(modelled by the allocation counter).  The insert hits the unique index
idx_folders_unique_name when a row with the same (name, parent, owner) key
exists, whether visible in the state or committed concurrently
(`uniqueRace`); lines 97-99 wrap and return any error unchanged — there is
no retry-on-constraint-violation guard — so the violation surfaces as an
error. -/
def CreateFolder (faults : Faults) (op : Nat) (db : DB) (folder : Folder) :
    Except RepoError (DB × Folder) :=
  if faults op = OpOutcome.dbFail then Except.error (RepoError.dbError op)
  else if faults op = OpOutcome.uniqueRace
      || db.folders.any (FolderMatches folder.name folder.parentFolderID folder.ownerID) then
    Except.error RepoError.uniqueViolation
  else
    let f : Folder := { folder with id := db.nextID }
    Except.ok ({ db with folders := db.folders ++ [f], nextID := db.nextID + 1 }, f)

/-- postgresRepository.CreateDocument (src/unnamed/part_012 lines 135-169):
INSERT of the service-built document with a fresh id from uuid.New()
(modelled by the allocation counter); errors are returned unchanged. -/
def CreateDocument (faults : Faults) (op : Nat) (db : DB) (doc : Document) :
    Except RepoError (DB × Document) :=
  if faults op = OpOutcome.dbFail then Except.error (RepoError.dbError op)
  else
    let d : Document := { doc with id := db.nextID }
    Except.ok ({ db with documents := db.documents ++ [d], nextID := db.nextID + 1 }, d)

/-- postgresRepository.CreateAttachment (src/unnamed/part_012 lines 172-203):
INSERT of the service-built attachment with a fresh id from uuid.New()
(modelled by the allocation counter); errors are returned unchanged. -/
def CreateAttachment (faults : Faults) (op : Nat) (db : DB) (att : DocumentAttachment) :
    Except RepoError (DB × DocumentAttachment) :=
  if faults op = OpOutcome.dbFail then Except.error (RepoError.dbError op)
  else
    let a : DocumentAttachment := { att with id := db.nextID }
    Except.ok ({ db with attachments := db.attachments ++ [a], nextID := db.nextID + 1 }, a)

/-- tx.Commit: can fail like any database call. -/
def CommitTx (faults : Faults) (op : Nat) : Except UploadError Unit :=
  if faults op = OpOutcome.dbFail then Except.error UploadError.commitFailed else Except.ok ()

/-- strings.ReplaceAll(path, backslash, slash) from parsePath
(src/internal/app/upload/service.go line 200). -/
def normalizeSeparators (l : List Char) : List Char :=
  l.map (fun c => if c = '\\' then '/' else c)

/-- strings.Trim(normalized, slash) (service.go line 203). -/
def trimSlashes (l : List Char) : List Char :=
  ((l.dropWhile (fun c => c = '/')).reverse.dropWhile (fun c => c = '/')).reverse

/-- strings.Split(s, slash) for the one-character separator: splits at every
slash, keeping empty fields (service.go line 210). -/
def splitOnSlash : List Char → List (List Char)
  | [] => [[]]
  | c :: rest =>
    if c = '/' then [] :: splitOnSlash rest
    else
      match splitOnSlash rest with
      | [] => [[c]]
      | h :: t => (c :: h) :: t

/-- parsePath (src/internal/app/upload/service.go lines 198-221): normalize
separators, trim outer slashes, return [] for the empty remainder, otherwise
split on slashes and drop empty parts. -/
def parsePath (path : String) : List String :=
  let normalized := normalizeSeparators path.toList
  let trimmed := trimSlashes normalized
  if trimmed = [] then []
  else ((splitOnSlash trimmed).filter (fun p => p ≠ [])).map (fun p => String.mk p)

/-- Scanner behind filepath.Ext: walk the path from its end; give up at a
separator, return the suffix from the first dot found.  The argument is the
reversed character list, the accumulator the characters already passed (in
original order). -/
def extLoop : List Char → List Char → List Char
  | [], _ => []
  | c :: rest, acc =>
    if c = '/' then []
    else if c = '.' then c :: acc
    else extLoop rest (c :: acc)

/-- filepath.Ext: the suffix of the final path element starting at its last
dot, empty when there is no dot. -/
def filepathExt (p : String) : String :=
  String.mk (extLoop p.toList.reverse [])

/-- strings.TrimSuffix: drop the suffix when present, else return the string
unchanged. -/
def trimSuffix (s suffix : String) : String :=
  if suffix.toList.isSuffixOf s.toList then
    String.mk (s.toList.take (s.toList.length - suffix.toList.length))
  else s

/-- upload.ProcessUploadParams (service.go lines 30-38). -/
structure ProcessUploadParams where
  relativePath : String
  parentFolderID : Option Nat
  ownerID : Nat
  filePath : String
  fileSize : Int
  fileType : String
  uploadID : String
  deriving DecidableEq, Repr

/-- upload.ProcessUploadResult (service.go lines 41-45). -/
structure ProcessUploadResult where
  document : Document
  attachment : DocumentAttachment
  folders : List Folder
  deriving DecidableEq, Repr

/-- The path accumulator of the folder loop (service.go lines 97-101): the
first segment starts the path, later segments are joined with a slash. -/
def extendPath (currentPath folderName : String) : String :=
  if currentPath = "" then folderName else currentPath ++ "/" ++ folderName

/-- The folder loop of ProcessUploadComplete (service.go lines 95-140):
for each segment extend the materialized path, fix the root flag from the
segment index and the original parent argument, look the folder up, create it
when absent, collect it, and descend.  Arguments after the segment list:
segment index i, next fault index, currentParentID, currentPath, transaction
state.  Returns the state, the next fault index, the deepest parent id and
the collected folders. -/
def processFolders (faults : Faults) (ownerID : Nat) (parentNone : Bool) :
    List String → Nat → Nat → Option Nat → String → DB →
      Except UploadError (DB × Nat × Option Nat × List Folder)
  | [], _, op, currentParentID, _, db => Except.ok (db, op, currentParentID, [])
  | folderName :: rest, i, op, currentParentID, currentPath, db =>
    let currentPath' := extendPath currentPath folderName
    let isRootFolder := i == 0 && parentNone
    match FindFolderByNameAndParent faults op db folderName currentParentID ownerID with
    | Except.error e => Except.error (UploadError.repo e)
    | Except.ok (some folder) =>
      match processFolders faults ownerID parentNone rest (i + 1) (op + 1)
          (some folder.id) currentPath' db with
      | Except.error e => Except.error e
      | Except.ok (db', op', p', fs) => Except.ok (db', op', p', folder :: fs)
    | Except.ok none =>
      let newFolder : Folder :=
        { id := 0, name := folderName, path := currentPath', isRootFolder := isRootFolder,
          parentFolderID := currentParentID, ownerID := ownerID }
      match CreateFolder faults (op + 1) db newFolder with
      | Except.error e => Except.error (UploadError.repo e)
      | Except.ok (db', folder) =>
        match processFolders faults ownerID parentNone rest (i + 1) (op + 2)
            (some folder.id) currentPath' db' with
        | Except.error e => Except.error e
        | Except.ok (db'', op', p', fs) => Except.ok (db'', op', p', folder :: fs)

/-- ProcessUploadComplete (service.go lines 60-195).  The pair returned is
the published relational state together with the call outcome: every error
path returns the caller's state unchanged (the deferred rollback), the commit
path publishes the transaction state. -/
def ProcessUploadComplete (faults : Faults) (db : DB) (params : ProcessUploadParams) :
    DB × Except UploadError ProcessUploadResult :=
  if faults 0 = OpOutcome.dbFail then (db, Except.error UploadError.beginTxFailed)
  else
    match parsePath params.relativePath with
    | [] => (db, Except.error (UploadError.invalidPath params.relativePath))
    | p :: ps =>
      let fileName := (p :: ps).getLast (List.cons_ne_nil p ps)
      let folderParts := (p :: ps).dropLast
      match processFolders faults params.ownerID (params.parentFolderID == none)
          folderParts 0 1 params.parentFolderID "" db with
      | Except.error e => (db, Except.error e)
      | Except.ok (db1, op1, currentParentID, folders) =>
        let titleWithoutExt := trimSuffix fileName (filepathExt fileName)
        let doc0 : Document :=
          { id := 0, title := titleWithoutExt, type := DocumentType.General,
            folderID := currentParentID, registrantID := some params.ownerID,
            status := DocumentStatus.Draft }
        match CreateDocument faults op1 db1 doc0 with
        | Except.error e => (db, Except.error (UploadError.repo e))
        | Except.ok (db2, doc) =>
          let att0 : DocumentAttachment :=
            { id := 0, documentID := doc.id, fileName := fileName, filePath := params.filePath,
              fileSize := params.fileSize, fileType := params.fileType, version := 1,
              isCurrent := true, uploadedBy := some params.ownerID }
          match CreateAttachment faults (op1 + 1) db2 att0 with
          | Except.error e => (db, Except.error (UploadError.repo e))
          | Except.ok (db3, att) =>
            match CommitTx faults (op1 + 2) with
            | Except.error e => (db, Except.error e)
            | Except.ok _ =>
              (db3, Except.ok { document := doc, attachment := att, folders := folders })

/-- UTF-8 encoding of one character, as byte values.  A Go string is a byte
slice holding this encoding, and uuid.Parse measures and indexes those
bytes, so the parser below works on the byte view. -/
def utf8EncodeCharBytes (c : Char) : List Nat :=
  let n := c.toNat
  if n < 128 then [n]
  else if n < 2048 then [192 + n / 64, 128 + n % 64]
  else if n < 65536 then [224 + n / 4096, 128 + (n / 64) % 64, 128 + n % 64]
  else [240 + n / 262144, 128 + (n / 4096) % 64, 128 + (n / 64) % 64, 128 + n % 64]

/-- The byte view of a string: what Go's len(s) and s[i] see. -/
def utf8Bytes (s : String) : List Nat :=
  (s.toList.map utf8EncodeCharBytes).flatten

/-- Hex digit value of one byte, as in the uuid library's xtob. -/
def hexVal (b : Nat) : Option Nat :=
  if 48 ≤ b ∧ b ≤ 57 then some (b - 48)
  else if 97 ≤ b ∧ b ≤ 102 then some (b - 97 + 10)
  else if 65 ≤ b ∧ b ≤ 70 then some (b - 65 + 10)
  else none

/-- One value from the two hex-digit bytes at byte positions i, i+1. -/
def byteAt (l : List Nat) (i : Nat) : Option Nat :=
  match l[i]?, l[i + 1]? with
  | some b1, some b2 =>
    match hexVal b1, hexVal b2 with
    | some hi, some lo => some (hi * 16 + lo)
    | _, _ => none
  | _, _ => none

/-- Fold the bytes at the given positions into one 128-bit value. -/
def bytesToUUID (l : List Nat) (positions : List Nat) : Option Nat :=
  positions.foldl
    (fun acc i =>
      match acc, byteAt l i with
      | some a, some b => some (a * 256 + b)
      | _, _ => none)
    (some 0)

/-- Start positions of the byte pairs in the dashed 8-4-4-4-12 form. -/
def canonicalPositions : List Nat := [0, 2, 4, 6, 9, 11, 14, 16, 19, 21, 24, 26, 28, 30, 32, 34]

/-- Start positions of the byte pairs in the 32-digit undashed form. -/
def hexPositions : List Nat := [0, 2, 4, 6, 8, 10, 12, 14, 16, 18, 20, 22, 24, 26, 28, 30]

/-- Dashed-form body of uuid.Parse: dash bytes (45) at byte offsets 8, 13,
18, 23 and sixteen hex byte pairs at the canonical positions. -/
def parseCanonical (l : List Nat) : Option Nat :=
  if l[8]? = some 45 ∧ l[13]? = some 45 ∧ l[18]? = some 45 ∧ l[23]? = some 45 then
    bytesToUUID l canonicalPositions
  else none

def toLowerAscii (b : Nat) : Nat :=
  if 65 ≤ b ∧ b ≤ 90 then b + 32 else b

/-- strings.EqualFold as it behaves against the fixed ascii target
urn:uuid: — byte-wise ascii case folding (no rune outside ascii folds onto
any byte of that target). -/
def asciiEqFold (a b : List Nat) : Bool :=
  a.map toLowerAscii == b.map toLowerAscii

/-- uuid.Parse from the google/uuid library (third-party dependency of the
handler), on the string's utf-8 bytes: Go switches on the BYTE length and
all indexing is byte indexing.  Accepted: the dashed 36-byte form, the
urn-prefixed 45-byte form, the brace-wrapped 38-byte form (whose first byte
is skipped unchecked and last byte never examined, as in the library) and
the 32-digit hex form; any other byte length fails. -/
def uuidParse (s : String) : Option Nat :=
  let l := utf8Bytes s
  if l.length = 36 then parseCanonical l
  else if l.length = 45 then
    if asciiEqFold (l.take 9) (utf8Bytes ("urn:uuid:")) then parseCanonical (l.drop 9)
    else none
  else if l.length = 38 then parseCanonical (l.drop 1)
  else if l.length = 32 then bytesToUUID l hexPositions
  else none

/-- The completed-upload event as seen by processCompletedUpload
(src/internal/app/upload/handler.go): the tusd upload id, its size, the
metadata map (Go map lookups yield the empty string for absent keys, so the
map is a total function into String), and the storage Key entry when the
storage info is present. -/
structure HookUpload where
  id : String
  size : Int
  metaData : String → String
  storageKey : Option String

/-- processCompletedUpload (handler.go lines 178-262): extract the metadata,
stop (creating nothing) when owner_id is absent or unparseable, keep a
malformed parent_folder_id as no parent, fall back from relative_path to
filename, stop when both are absent, then run ProcessUploadComplete.  The
second component is none when processing stopped before the service call. -/
def processCompletedUpload (faults : Faults) (db : DB) (upload : HookUpload) :
    DB × Option (Except UploadError ProcessUploadResult) :=
  let relativePath := upload.metaData ("relative_path")
  let ownerIDStr := upload.metaData ("owner_id")
  let parentFolderIDStr := upload.metaData ("parent_folder_id")
  let fileType := upload.metaData ("file_type")
  let fileName := upload.metaData ("filename")
  if ownerIDStr = "" then (db, none)
  else
    match uuidParse ownerIDStr with
    | none => (db, none)
    | some ownerID =>
      let parentFolderID : Option Nat :=
        if parentFolderIDStr ≠ "" then
          match uuidParse parentFolderIDStr with
          | some parsed => some parsed
          | none => none
        else none
      let relativePath' := if relativePath = "" ∧ fileName ≠ "" then fileName else relativePath
      if relativePath' = "" then (db, none)
      else
        let filePath :=
          match upload.storageKey with
          | some key => key
          | none => upload.id
        let params : ProcessUploadParams :=
          { relativePath := relativePath', parentFolderID := parentFolderID, ownerID := ownerID,
            filePath := filePath, fileSize := upload.size, fileType := fileType,
            uploadID := upload.id }
        let out := ProcessUploadComplete faults db params
        (out.1, some out.2)

/-- Folder chain that ProcessUploadComplete lays down for the segment list
when every lookup misses: segment index i, parent p, materialized path so
far, next allocator value nid.  Used to state the idempotence claim. -/
def mkChain (ownerID : Nat) (parentNone : Bool) :
    List String → Nat → Option Nat → String → Nat → List Folder
  | [], _, _, _, _ => []
  | n :: rest, i, p, path, nid =>
    let path' := extendPath path n
    { id := nid, name := n, path := path', isRootFolder := i == 0 && parentNone,
      parentFolderID := p, ownerID := ownerID }
      :: mkChain ownerID parentNone rest (i + 1) (some nid) path' (nid + 1)

/-- Parent id reached after walking a chain of the given length laid down
from allocator value nid. -/
def chainLastParent (p : Option Nat) (nid : Nat) (len : Nat) : Option Nat :=
  if len = 0 then p else some (nid + len - 1)

/-- Well-formed allocator state: no stored folder refers to an id the
allocator has not handed out yet. -/
def FreshOK (db : DB) : Prop :=
  ∀ f ∈ db.folders, ∀ j, f.parentFolderID = some j → j < db.nextID

/-- A parent reference only names already-allocated ids. -/
def PValid (p : Option Nat) (n : Nat) : Prop :=
  ∀ q, p = some q → q < n

/-- Written from the claim wording, for comparison with the code: the part
of a file name before its last dot. -/
def beforeLastDot (l : List Char) : List Char :=
  (((l.reverse).dropWhile (fun c => c ≠ '.')).drop 1).reverse

theorem splitOnSlash_ne_nil (l : List Char) : splitOnSlash l ≠ [] := by
  cases l with
  | nil => simp [splitOnSlash]
  | cons c rest =>
    unfold splitOnSlash
    split
    · simp
    · split <;> simp

theorem splitOnSlash_mem (l : List Char) (p : List Char) (hp : p ∈ splitOnSlash l) :
    '/' ∉ p ∧ ∀ c ∈ p, c ∈ l := by
  induction l generalizing p with
  | nil =>
    simp only [splitOnSlash, List.mem_singleton] at hp
    subst hp; simp
  | cons c rest ih =>
    unfold splitOnSlash at hp
    by_cases hc : c = '/'
    · rw [if_pos hc] at hp
      rcases List.mem_cons.mp hp with h | h
      · subst h; simp
      · obtain ⟨h1, h2⟩ := ih p h
        exact ⟨h1, fun x hx => List.mem_cons_of_mem c (h2 x hx)⟩
    · rw [if_neg hc] at hp
      rcases hsp : splitOnSlash rest with _ | ⟨h0, t⟩
      · exact absurd hsp (splitOnSlash_ne_nil rest)
      · rw [hsp] at hp
        rcases List.mem_cons.mp hp with h | h
        · subst h
          have hh : h0 ∈ splitOnSlash rest := by rw [hsp]; exact List.mem_cons_self _ _
          obtain ⟨h1, h2⟩ := ih h0 hh
          constructor
          · intro hmem
            rcases List.mem_cons.mp hmem with h' | h'
            · exact hc h'.symm
            · exact h1 h'
          · intro x hx
            rcases List.mem_cons.mp hx with h' | h'
            · subst h'; exact List.mem_cons_self _ _
            · exact List.mem_cons_of_mem c (h2 x h')
        · have hmem : p ∈ splitOnSlash rest := by rw [hsp]; exact List.mem_cons_of_mem _ h
          obtain ⟨h1, h2⟩ := ih p hmem
          exact ⟨h1, fun x hx => List.mem_cons_of_mem c (h2 x hx)⟩

theorem normalizeSeparators_no_backslash (l : List Char) : '\\' ∉ normalizeSeparators l := by
  intro h
  rw [normalizeSeparators, List.mem_map] at h
  obtain ⟨a, _, ha⟩ := h
  by_cases h' : a = '\\'
  · rw [if_pos h'] at ha; exact absurd ha (by decide)
  · rw [if_neg h'] at ha; exact h' ha

theorem trimSlashes_subset (l : List Char) : ∀ c ∈ trimSlashes l, c ∈ l := by
  intro c hc
  unfold trimSlashes at hc
  rw [List.mem_reverse] at hc
  have h1 := (List.dropWhile_sublist _).subset hc
  rw [List.mem_reverse] at h1
  exact (List.dropWhile_sublist _).subset h1

theorem parsePath_segments (path : String) (s : String) (hs : s ∈ parsePath path) :
    s ≠ "" ∧ '/' ∉ s.toList ∧ '\\' ∉ s.toList := by
  simp only [parsePath] at hs
  split at hs
  · simp at hs
  · rw [List.mem_map] at hs
    obtain ⟨p, hp, hps⟩ := hs
    rw [List.mem_filter] at hp
    obtain ⟨hpmem, hpne⟩ := hp
    obtain ⟨hslash, hsub⟩ := splitOnSlash_mem _ p hpmem
    have hplist : s.toList = p := by rw [← hps]; exact rfl
    refine ⟨?_, ?_, ?_⟩
    · intro hemp
      have hnil : p = [] := by
        have h2 := congrArg String.toList hemp
        rw [hplist] at h2
        simpa using h2
      exact (of_decide_eq_true hpne) hnil
    · rw [hplist]; exact hslash
    · rw [hplist]
      intro hbs
      have hn := hsub _ hbs
      have hn2 := trimSlashes_subset _ _ hn
      exact normalizeSeparators_no_backslash _ hn2

theorem processFolders_error_repo (faults : Faults) (ownerID : Nat) (pn : Bool)
    (names : List String) (i op : Nat) (p : Option Nat) (path : String) (db : DB)
    (e : UploadError)
    (h : processFolders faults ownerID pn names i op p path db = Except.error e) :
    ∃ r, e = UploadError.repo r := by
  induction names generalizing i op p path db e with
  | nil => simp [processFolders] at h
  | cons n rest ih =>
    simp only [processFolders] at h
    split at h
    · injection h with h; exact ⟨_, h.symm⟩
    · split at h
      · rename_i heq2
        injection h with h
        exact h ▸ ih _ _ _ _ _ _ heq2
      · exact absurd h (by simp)
    · split at h
      · injection h with h; exact ⟨_, h.symm⟩
      · split at h
        · rename_i heq2
          injection h with h
          exact h ▸ ih _ _ _ _ _ _ heq2
        · exact absurd h (by simp)

/-- C1: whenever ProcessUploadComplete returns an error — whatever repository
call failed and wherever in the run — the published relational state equals
the caller's state: the transaction is rolled back, so no folder, document or
attachment from the call persists, and the caller receives the single error. -/
theorem c1_error_rolls_back (faults : Faults) (db : DB) (params : ProcessUploadParams)
    (db' : DB) (e : UploadError)
    (h : ProcessUploadComplete faults db params = (db', Except.error e)) : db' = db := by
  simp only [ProcessUploadComplete] at h
  repeat' split at h
  all_goals simp only [Prod.mk.injEq] at h
  all_goals first
    | exact h.1.symm
    | exact absurd h.2 (by simp)

theorem c1_error_rolls_back_witness : DB.empty = DB.empty :=
  c1_error_rolls_back (fun n => if n = 5 then OpOutcome.dbFail else OpOutcome.ok) DB.empty
    { relativePath := "Invoices/2024/march.pdf", parentFolderID := none, ownerID := 100,
      filePath := "objkey", fileSize := 3, fileType := "application/pdf", uploadID := "u1" }
    DB.empty (UploadError.repo (RepoError.dbError 5)) (by decide)

/-- C2: processing relativePath Invoices/2024/march.pdf for owner 100 with no
parent folder from the empty store creates folder Invoices (root, path
Invoices), folder 2024 (non-root, parent = Invoices' id, path Invoices/2024),
a document titled march placed in the 2024 folder, and exactly one attachment
march.pdf at version 1 marked current. -/
theorem c2_nested_path_scenario :
    ProcessUploadComplete noFaults DB.empty
      { relativePath := "Invoices/2024/march.pdf", parentFolderID := none, ownerID := 100,
        filePath := "objkey", fileSize := 3, fileType := "application/pdf", uploadID := "u1" }
      =
      ({ folders :=
          [{ id := 0, name := "Invoices", path := "Invoices", isRootFolder := true,
             parentFolderID := none, ownerID := 100 },
           { id := 1, name := "2024", path := "Invoices/2024", isRootFolder := false,
             parentFolderID := some 0, ownerID := 100 }],
         documents :=
          [{ id := 2, title := "march", type := DocumentType.General, folderID := some 1,
             registrantID := some 100, status := DocumentStatus.Draft }],
         attachments :=
          [{ id := 3, documentID := 2, fileName := "march.pdf", filePath := "objkey",
             fileSize := 3, fileType := "application/pdf", version := 1, isCurrent := true,
             uploadedBy := some 100 }],
         nextID := 4 },
       Except.ok
        { document :=
            { id := 2, title := "march", type := DocumentType.General, folderID := some 1,
              registrantID := some 100, status := DocumentStatus.Draft },
          attachment :=
            { id := 3, documentID := 2, fileName := "march.pdf", filePath := "objkey",
              fileSize := 3, fileType := "application/pdf", version := 1, isCurrent := true,
              uploadedBy := some 100 },
          folders :=
            [{ id := 0, name := "Invoices", path := "Invoices", isRootFolder := true,
               parentFolderID := none, ownerID := 100 },
             { id := 1, name := "2024", path := "Invoices/2024", isRootFolder := false,
               parentFolderID := some 0, ownerID := 100 }] }) := by
  decide

/-- C4: a unique-constraint violation on the folder insert (a concurrent
transaction committed the same (name, parent, owner) folder between the
lookup and the insert) is not treated as folder-already-exists: the error
propagates out of ProcessUploadComplete, the transaction rolls back, and
nothing — not even the document and attachment — is created. -/
theorem c4_unique_violation_aborts :
    ProcessUploadComplete (fun n => if n = 2 then OpOutcome.uniqueRace else OpOutcome.ok)
      DB.empty
      { relativePath := "Shared/doc.txt", parentFolderID := none, ownerID := 100,
        filePath := "objkey", fileSize := 3, fileType := "text/plain", uploadID := "u1" }
      = (DB.empty, Except.error (UploadError.repo RepoError.uniqueViolation)) := by
  decide

/-- C6: every segment parsePath returns is non-empty and free of both
separators, and — given the transaction opens — ProcessUploadComplete fails
with the invalid-path error, leaving the state untouched, exactly when the
segment list is empty. -/
theorem c6_parse_path_segments_and_empty :
    (∀ (path : String), ∀ s ∈ parsePath path, s ≠ "" ∧ '/' ∉ s.toList ∧ '\\' ∉ s.toList) ∧
    (∀ (faults : Faults) (db : DB) (params : ProcessUploadParams),
      faults 0 ≠ OpOutcome.dbFail →
      (ProcessUploadComplete faults db params
          = (db, Except.error (UploadError.invalidPath params.relativePath))
        ↔ parsePath params.relativePath = [])) := by
  constructor
  · exact fun path s hs => parsePath_segments path s hs
  · intro faults db params hbegin
    constructor
    · intro h
      by_contra hne
      simp only [ProcessUploadComplete] at h
      rw [if_neg hbegin] at h
      split at h
      · rename_i heq; exact hne heq
      · split at h
        · rename_i heq
          obtain ⟨r, hr⟩ := processFolders_error_repo _ _ _ _ _ _ _ _ _ _ heq
          subst hr
          simp only [Prod.mk.injEq] at h
          exact absurd h.2 (by simp)
        · split at h
          · simp only [Prod.mk.injEq] at h; exact absurd h.2 (by simp)
          · split at h
            · simp only [Prod.mk.injEq] at h; exact absurd h.2 (by simp)
            · split at h
              · rename_i heqc
                simp only [CommitTx] at heqc
                split at heqc
                · injection heqc with heqc
                  subst heqc
                  simp only [Prod.mk.injEq] at h
                  exact absurd h.2 (by simp)
                · exact absurd heqc (by simp)
              · simp only [Prod.mk.injEq] at h; exact absurd h.2 (by simp)
    · intro hp
      simp only [ProcessUploadComplete]
      rw [if_neg hbegin, hp]

theorem c6_parse_path_segments_and_empty_witness :
    ProcessUploadComplete noFaults DB.empty
      { relativePath := "///", parentFolderID := none, ownerID := 1, filePath := "k",
        fileSize := 0, fileType := "", uploadID := "u" }
      = (DB.empty, Except.error (UploadError.invalidPath "///")) :=
  (c6_parse_path_segments_and_empty.2 noFaults DB.empty _ (by decide)).mpr (by decide)

/-- C7: every successful ProcessUploadComplete creates the document with
registrantId = ownerId, status Draft and type General; and when the parsed
path has a single segment, no folder is created or returned and the
document's folderId is the caller-supplied parentFolderID (none when the
caller supplied none). -/
theorem c7_flat_upload_and_document_fields (faults : Faults) (db : DB)
    (params : ProcessUploadParams) (db' : DB) (res : ProcessUploadResult)
    (h : ProcessUploadComplete faults db params = (db', Except.ok res)) :
    (res.document.registrantID = some params.ownerID ∧
     res.document.status = DocumentStatus.Draft ∧
     res.document.type = DocumentType.General) ∧
    ((parsePath params.relativePath).length = 1 →
      res.folders = [] ∧ db'.folders = db.folders ∧
      res.document.folderID = params.parentFolderID) := by
  simp only [ProcessUploadComplete] at h
  split at h
  · simp only [Prod.mk.injEq] at h; exact absurd h.2 (by simp)
  · split at h
    · simp only [Prod.mk.injEq] at h; exact absurd h.2 (by simp)
    · rename_i p ps heqpp
      split at h
      · simp only [Prod.mk.injEq] at h; exact absurd h.2 (by simp)
      · rename_i db1 op1 cp fs heqpf
        split at h
        · simp only [Prod.mk.injEq] at h; exact absurd h.2 (by simp)
        · rename_i db2 doc heqcd
          split at h
          · simp only [Prod.mk.injEq] at h; exact absurd h.2 (by simp)
          · rename_i db3 att heqca
            split at h
            · simp only [Prod.mk.injEq] at h; exact absurd h.2 (by simp)
            · simp only [Prod.mk.injEq, Except.ok.injEq] at h
              obtain ⟨hdb', hres⟩ := h
              simp only [CreateDocument] at heqcd
              split at heqcd
              · exact absurd heqcd (by simp)
              · simp only [Except.ok.injEq, Prod.mk.injEq] at heqcd
                obtain ⟨hdb2, hdoc⟩ := heqcd
                simp only [CreateAttachment] at heqca
                split at heqca
                · exact absurd heqca (by simp)
                · simp only [Except.ok.injEq, Prod.mk.injEq] at heqca
                  obtain ⟨hdb3, hatt⟩ := heqca
                  subst hdb' hdb3 hdb2 hres hdoc hatt
                  constructor
                  · exact ⟨rfl, rfl, rfl⟩
                  · intro hlen
                    have hps : ps = [] := by
                      rw [heqpp] at hlen
                      simpa using hlen
                    subst hps
                    rw [List.dropLast_single] at heqpf
                    simp only [processFolders, Except.ok.injEq, Prod.mk.injEq] at heqpf
                    obtain ⟨hdb1, _, hcp, hfs⟩ := heqpf
                    subst hdb1 hcp hfs
                    exact ⟨rfl, rfl, rfl⟩

theorem c7_flat_upload_and_document_fields_witness :
    ({ document :=
        { id := 0, title := "report", type := DocumentType.General, folderID := some 7,
          registrantID := some 100, status := DocumentStatus.Draft },
       attachment :=
        { id := 1, documentID := 0, fileName := "report.pdf", filePath := "k", fileSize := 5,
          fileType := "t", version := 1, isCurrent := true, uploadedBy := some 100 },
       folders := [] } : ProcessUploadResult).document.registrantID = some 100 :=
  (c7_flat_upload_and_document_fields noFaults DB.empty
    { relativePath := "report.pdf", parentFolderID := some 7, ownerID := 100,
      filePath := "k", fileSize := 5, fileType := "t", uploadID := "u" }
    { folders := [],
      documents :=
        [{ id := 0, title := "report", type := DocumentType.General, folderID := some 7,
           registrantID := some 100, status := DocumentStatus.Draft }],
      attachments :=
        [{ id := 1, documentID := 0, fileName := "report.pdf", filePath := "k", fileSize := 5,
           fileType := "t", version := 1, isCurrent := true, uploadedBy := some 100 }],
      nextID := 2 }
    { document :=
        { id := 0, title := "report", type := DocumentType.General, folderID := some 7,
          registrantID := some 100, status := DocumentStatus.Draft },
      attachment :=
        { id := 1, documentID := 0, fileName := "report.pdf", filePath := "k", fileSize := 5,
          fileType := "t", version := 1, isCurrent := true, uploadedBy := some 100 },
      folders := [] }
    (by decide)).1.1

theorem extLoop_no_dot (m acc : List Char) (h : '.' ∉ m) : extLoop m acc = [] := by
  induction m generalizing acc with
  | nil => rfl
  | cons c rest ih =>
    rw [List.mem_cons, not_or] at h
    unfold extLoop
    by_cases hc : c = '/'
    · rw [if_pos hc]
    · rw [if_neg hc, if_neg (fun hd => h.1 hd.symm)]
      exact ih _ h.2

theorem extLoop_last_dot (m rest2 : List Char) :
    ∀ acc, '.' ∉ m → '/' ∉ m →
      extLoop (m ++ '.' :: rest2) acc = '.' :: (m.reverse ++ acc) := by
  induction m with
  | nil =>
    intro acc _ _
    simp [extLoop]
  | cons c rest ih =>
    intro acc hdot hslash
    rw [List.mem_cons, not_or] at hdot hslash
    rw [List.cons_append]
    unfold extLoop
    rw [if_neg (fun hd => hslash.1 hd.symm), if_neg (fun hd => hdot.1 hd.symm)]
    rw [ih (c :: acc) hdot.2 hslash.2]
    simp

theorem lastDot_decomp (l : List Char) (h : '.' ∈ l) :
    ∃ before after, l = before ++ '.' :: after ∧ '.' ∉ after := by
  induction l with
  | nil => simp at h
  | cons c rest ih =>
    by_cases hr : '.' ∈ rest
    · obtain ⟨b, a, hba, hna⟩ := ih hr
      exact ⟨c :: b, a, by rw [List.cons_append, ← hba], hna⟩
    · have hc : c = '.' := by
        rcases List.mem_cons.mp h with h' | h'
        · exact h'.symm
        · exact absurd h' hr
      exact ⟨[], rest, by rw [hc, List.nil_append], hr⟩

theorem dropWhile_append_of_all {p : Char → Bool} (m k : List Char)
    (h : ∀ c ∈ m, p c = true) : (m ++ k).dropWhile p = k.dropWhile p := by
  induction m with
  | nil => rfl
  | cons c rest ih =>
    rw [List.cons_append, List.dropWhile_cons, if_pos (h c (List.mem_cons_self c rest))]
    exact ih (fun x hx => h x (List.mem_cons_of_mem c hx))

theorem beforeLastDot_eq (before after : List Char) (hna : '.' ∉ after) :
    beforeLastDot (before ++ '.' :: after) = before := by
  have hall : ∀ c ∈ after.reverse, (fun c => decide (c ≠ '.')) c = true := by
    intro c hc
    rw [List.mem_reverse] at hc
    simp only [decide_eq_true_eq]
    intro hcd
    exact hna (hcd ▸ hc)
  unfold beforeLastDot
  rw [List.reverse_append, List.reverse_cons, List.append_assoc, List.singleton_append,
    dropWhile_append_of_all _ _ hall, List.dropWhile_cons]
  simp

/-- C9: the document title is the file name minus the suffix that starts at
its last dot (via filepath.Ext), with no non-emptiness check: a name with no
dot keeps its full name, and a name whose only dot is its first character,
like .gitignore, yields the empty title — shown both on the trimming
expression the service uses and on a run whose created document has title
empty. -/
theorem c9_title_strips_last_dot_suffix :
    (∀ fileName : String, '.' ∉ fileName.toList →
        trimSuffix fileName (filepathExt fileName) = fileName) ∧
    (∀ fileName : String, '/' ∉ fileName.toList → '.' ∈ fileName.toList →
        (trimSuffix fileName (filepathExt fileName)).toList = beforeLastDot fileName.toList) ∧
    trimSuffix (".gitignore") (filepathExt (".gitignore")) = "" ∧
    (ProcessUploadComplete noFaults DB.empty
        { relativePath := ".gitignore", parentFolderID := none, ownerID := 100,
          filePath := "k", fileSize := 1, fileType := "", uploadID := "u" }).2
      = Except.ok
          { document :=
              { id := 0, title := "", type := DocumentType.General, folderID := none,
                registrantID := some 100, status := DocumentStatus.Draft },
            attachment :=
              { id := 1, documentID := 0, fileName := ".gitignore", filePath := "k",
                fileSize := 1, fileType := "", version := 1, isCurrent := true,
                uploadedBy := some 100 },
            folders := [] } := by
  refine ⟨?_, ?_, by decide, by decide⟩
  · intro fileName hdot
    have hext : filepathExt fileName = "" := by
      unfold filepathExt
      rw [extLoop_no_dot _ _ (fun hm => hdot (List.mem_reverse.mp hm))]
    rw [hext]
    unfold trimSuffix
    rw [if_pos (by exact List.isSuffixOf_iff_suffix.mpr List.nil_suffix)]
    show String.mk (fileName.toList.take (fileName.toList.length - ("" : String).toList.length))
      = fileName
    rw [show ("" : String).toList.length = 0 from rfl, Nat.sub_zero, List.take_length]
    exact rfl
  · intro fileName hslash hdot
    obtain ⟨before, after, hdecomp, hna⟩ := lastDot_decomp _ hdot
    have hrevdot : '.' ∉ after.reverse := fun hm => hna (List.mem_reverse.mp hm)
    have hrevslash : '/' ∉ after.reverse := by
      intro hm
      apply hslash
      rw [hdecomp]
      exact List.mem_append_right _ (List.mem_cons_of_mem _ (List.mem_reverse.mp hm))
    have hext : (filepathExt fileName).toList = '.' :: after := by
      unfold filepathExt
      show extLoop fileName.toList.reverse [] = _
      rw [hdecomp, List.reverse_append, List.reverse_cons, List.append_assoc,
        List.singleton_append, extLoop_last_dot after.reverse before.reverse [] hrevdot hrevslash]
      simp
    have hsuf : (filepathExt fileName).toList.isSuffixOf fileName.toList = true := by
      rw [hext, hdecomp]
      exact List.isSuffixOf_iff_suffix.mpr (List.suffix_append _ _)
    unfold trimSuffix
    rw [if_pos hsuf]
    show fileName.toList.take _ = _
    rw [hext, hdecomp, beforeLastDot_eq _ _ hna]
    have hlen : (before ++ '.' :: after).length - ('.' :: after).length = before.length := by
      simp
    rw [hlen]
    exact List.take_left' rfl

/-- C8: processCompletedUpload stops — leaving the state untouched, with no
folder, document or attachment created — when owner_id is absent from the
metadata or fails uuid parsing; and when relative_path is absent it falls
back to the filename metadata value, running the service on that path. -/
theorem c8_owner_required_and_filename_fallback :
    (∀ (faults : Faults) (db : DB) (upload : HookUpload),
      upload.metaData ("owner_id") = "" ∨ uuidParse (upload.metaData ("owner_id")) = none →
      processCompletedUpload faults db upload = (db, none)) ∧
    (∀ (faults : Faults) (db : DB) (upload : HookUpload) (ownerID : Nat),
      upload.metaData ("relative_path") = "" →
      upload.metaData ("filename") ≠ "" →
      uuidParse (upload.metaData ("owner_id")) = some ownerID →
      processCompletedUpload faults db upload =
        (let out := ProcessUploadComplete faults db
          { relativePath := upload.metaData ("filename"),
            parentFolderID :=
              if upload.metaData ("parent_folder_id") ≠ "" then
                match uuidParse (upload.metaData ("parent_folder_id")) with
                | some parsed => some parsed
                | none => none
              else none,
            ownerID := ownerID,
            filePath :=
              match upload.storageKey with
              | some key => key
              | none => upload.id,
            fileSize := upload.size, fileType := upload.metaData ("file_type"),
            uploadID := upload.id }
         (out.1, some out.2))) := by
  constructor
  · intro faults db upload h
    simp only [processCompletedUpload]
    rcases h with h | h
    · rw [if_pos h]
    · by_cases hemp : upload.metaData ("owner_id") = ""
      · rw [if_pos hemp]
      · rw [if_neg hemp, h]
  · intro faults db upload ownerID hrel hfn hparse
    have hne : upload.metaData ("owner_id") ≠ "" := by
      intro hemp
      rw [hemp, show uuidParse "" = none from rfl] at hparse
      exact Option.noConfusion hparse
    simp only [processCompletedUpload, if_neg hne, hparse]
    rw [if_pos (⟨hrel, hfn⟩ : _ ∧ _), if_neg hfn]

theorem c8_owner_required_and_filename_fallback_witness :
    processCompletedUpload noFaults DB.empty
      { id := "u1", size := 5,
        metaData := fun k => if k = "owner_id" then "bogus" else "",
        storageKey := none }
      = (DB.empty, none) :=
  c8_owner_required_and_filename_fallback.1 noFaults DB.empty _ (Or.inr (by decide))

/-- C10: a present but malformed parent_folder_id metadata value is silently
ignored: processing proceeds with no parent folder and reports no error for
the malformed value, and concretely the first path segment's folder is then
created as a root folder owned by the uploader. -/
theorem c10_malformed_parent_folder_ignored :
    (∀ (faults : Faults) (db : DB) (upload : HookUpload) (ownerID : Nat),
      uuidParse (upload.metaData ("owner_id")) = some ownerID →
      upload.metaData ("relative_path") ≠ "" →
      upload.metaData ("parent_folder_id") ≠ "" →
      uuidParse (upload.metaData ("parent_folder_id")) = none →
      processCompletedUpload faults db upload =
        (let out := ProcessUploadComplete faults db
          { relativePath := upload.metaData ("relative_path"),
            parentFolderID := none,
            ownerID := ownerID,
            filePath :=
              match upload.storageKey with
              | some key => key
              | none => upload.id,
            fileSize := upload.size, fileType := upload.metaData ("file_type"),
            uploadID := upload.id }
         (out.1, some out.2))) ∧
    (processCompletedUpload noFaults DB.empty
        { id := "u1", size := 4,
          metaData := fun k =>
            if k = "relative_path" then "Reports/q1.pdf"
            else if k = "owner_id" then "00000000-0000-0000-0000-000000000064"
            else if k = "parent_folder_id" then "zzz"
            else "",
          storageKey := some "objkey" }).2
      = some (Except.ok
          { document :=
              { id := 1, title := "q1", type := DocumentType.General, folderID := some 0,
                registrantID := some 100, status := DocumentStatus.Draft },
            attachment :=
              { id := 2, documentID := 1, fileName := "q1.pdf", filePath := "objkey",
                fileSize := 4, fileType := "", version := 1, isCurrent := true,
                uploadedBy := some 100 },
            folders :=
              [{ id := 0, name := "Reports", path := "Reports", isRootFolder := true,
                 parentFolderID := none, ownerID := 100 }] }) := by
  constructor
  · intro faults db upload ownerID hparse hrelne hpne hpbad
    have hne : upload.metaData ("owner_id") ≠ "" := by
      intro hemp
      rw [hemp, show uuidParse "" = none from rfl] at hparse
      exact Option.noConfusion hparse
    simp only [processCompletedUpload, if_neg hne, hparse, hpbad, ite_self]
    rw [if_neg
      (fun hand : upload.metaData ("relative_path") = "" ∧ upload.metaData ("filename") ≠ "" =>
        hrelne hand.1)]
    rw [if_neg hrelne]
  · decide

theorem c10_malformed_parent_folder_ignored_witness :
    processCompletedUpload noFaults DB.empty
      { id := "u1", size := 4,
        metaData := fun k =>
          if k = "relative_path" then "Reports/q1.pdf"
          else if k = "owner_id" then "00000000-0000-0000-0000-000000000064"
          else if k = "parent_folder_id" then "zzz"
          else "",
        storageKey := some "objkey" }
      =
      (let out := ProcessUploadComplete noFaults DB.empty
        { relativePath := "Reports/q1.pdf",
          parentFolderID := none,
          ownerID := 100,
          filePath := "objkey",
          fileSize := 4, fileType := "",
          uploadID := "u1" }
       (out.1, some out.2)) :=
  c10_malformed_parent_folder_ignored.1 noFaults DB.empty _ 100 (by decide) (by decide)
    (by decide) (by decide)

theorem c9_title_strips_last_dot_suffix_witness :
    trimSuffix ("report") (filepathExt ("report")) = "report" :=
  c9_title_strips_last_dot_suffix.1 ("report") (by decide)

theorem find_ok_some (faults : Faults) (op : Nat) (db : DB) (name : String)
    (parentID : Option Nat) (ownerID : Nat) (folder : Folder)
    (h : FindFolderByNameAndParent faults op db name parentID ownerID
      = Except.ok (some folder)) :
    folder ∈ db.folders ∧ folder.name = name ∧ folder.parentFolderID = parentID ∧
      folder.ownerID = ownerID := by
  simp only [FindFolderByNameAndParent] at h
  split at h
  · exact absurd h (by simp)
  · simp only [Except.ok.injEq] at h
    have hmem := List.mem_of_find?_eq_some h
    have hp := List.find?_some h
    simp only [FolderMatches, Bool.and_eq_true, beq_iff_eq] at hp
    exact ⟨hmem, hp.1.1, hp.1.2, hp.2⟩

theorem createFolder_ok (faults : Faults) (op : Nat) (db : DB) (folder : Folder)
    (db' : DB) (f : Folder)
    (h : CreateFolder faults op db folder = Except.ok (db', f)) :
    f = { folder with id := db.nextID } ∧
    db' = { db with folders := db.folders ++ [f], nextID := db.nextID + 1 } := by
  simp only [CreateFolder] at h
  split at h
  · exact absurd h (by simp)
  · split at h
    · exact absurd h (by simp)
    · simp only [Except.ok.injEq, Prod.mk.injEq] at h
      obtain ⟨h1, h2⟩ := h
      rw [← h1, ← h2]
      exact ⟨rfl, rfl⟩

theorem processFolders_some_parent (faults : Faults) (ownerID : Nat) (pn : Bool)
    (names : List String) : ∀ (i op : Nat) (q : Nat) (path : String) (db db' : DB)
    (op' : Nat) (p' : Option Nat) (fs : List Folder),
    processFolders faults ownerID pn names i op (some q) path db
      = Except.ok (db', op', p', fs) →
    ∀ f ∈ fs, f.parentFolderID ≠ none := by
  induction names with
  | nil =>
    intro i op q path db db' op' p' fs h
    simp only [processFolders, Except.ok.injEq, Prod.mk.injEq] at h
    obtain ⟨_, _, _, hfs⟩ := h
    subst hfs
    intro f hf
    simp at hf
  | cons n rest ih =>
    intro i op q path db db' op' p' fs h
    simp only [processFolders] at h
    split at h
    · exact absurd h (by simp)
    · rename_i folder heqf
      split at h
      · exact absurd h (by simp)
      · rename_i db2 op2 p2 fs2 heqr
        simp only [Except.ok.injEq, Prod.mk.injEq] at h
        obtain ⟨hdb, hop, hp, hfs⟩ := h
        subst hfs
        intro f hf
        rcases List.mem_cons.mp hf with hf | hf
        · subst hf
          obtain ⟨_, _, hpar, _⟩ := find_ok_some _ _ _ _ _ _ _ heqf
          rw [hpar]
          exact fun hx => Option.noConfusion hx
        · exact ih _ _ folder.id _ _ _ _ _ _ heqr f hf
    · rename_i heqf
      split at h
      · exact absurd h (by simp)
      · rename_i db1 folder heqc
        split at h
        · exact absurd h (by simp)
        · rename_i db2 op2 p2 fs2 heqr
          simp only [Except.ok.injEq, Prod.mk.injEq] at h
          obtain ⟨hdb, hop, hp, hfs⟩ := h
          subst hfs
          intro f hf
          rcases List.mem_cons.mp hf with hf | hf
          · subst hf
            obtain ⟨hfolder, _⟩ := createFolder_ok _ _ _ _ _ _ heqc
            rw [hfolder]
            exact fun hx => Option.noConfusion hx
          · exact ih _ _ folder.id _ _ _ _ _ _ heqr f hf

theorem processFolders_created_root_flag (faults : Faults) (ownerID : Nat) (pn : Bool)
    (names : List String) : ∀ (i op : Nat) (p : Option Nat) (path : String) (db db' : DB)
    (op' : Nat) (p' : Option Nat) (fs : List Folder),
    processFolders faults ownerID pn names i op p path db = Except.ok (db', op', p', fs) →
    ((pn = true ∧ i = 0) → p = none) →
    fs.length = names.length ∧
    (∀ j (hj : j < fs.length), fs.get ⟨j, hj⟩ ∉ db.folders →
      ((fs.get ⟨j, hj⟩).isRootFolder = true ↔ (i + j = 0 ∧ pn = true))) := by
  induction names with
  | nil =>
    intro i op p path db db' op' p' fs h hpre
    simp only [processFolders, Except.ok.injEq, Prod.mk.injEq] at h
    obtain ⟨_, _, _, hfs⟩ := h
    subst hfs
    exact ⟨rfl, fun j hj => absurd hj (by simp)⟩
  | cons n rest ih =>
    intro i op p path db db' op' p' fs h hpre
    simp only [processFolders] at h
    split at h
    · exact absurd h (by simp)
    · rename_i folder heqf
      split at h
      · exact absurd h (by simp)
      · rename_i db2 op2 p2 fs2 heqr
        simp only [Except.ok.injEq, Prod.mk.injEq] at h
        obtain ⟨hdb, hop, hp, hfs⟩ := h
        subst hfs
        obtain ⟨hmem, _, _, _⟩ := find_ok_some _ _ _ _ _ _ _ heqf
        obtain ⟨hlen2, hflag2⟩ := ih (i + 1) (op + 1) (some folder.id) _ db db2 op2 p2 fs2
          heqr (fun hc => absurd hc.2 (by omega))
        refine ⟨by simp [hlen2], ?_⟩
        intro j hj hnm
        cases j with
        | zero => exact absurd hmem hnm
        | succ j' =>
          have hj2 : j' < fs2.length := by
            simpa using hj
          have hget : (folder :: fs2).get ⟨j' + 1, hj⟩ = fs2.get ⟨j', hj2⟩ := rfl
          rw [hget]
          rw [hget] at hnm
          have hiff := hflag2 j' hj2 hnm
          constructor
          · intro hfl
            exact absurd (hiff.mp hfl).1 (by omega)
          · intro hc
            exact absurd hc.1 (by omega)
    · rename_i heqf
      split at h
      · exact absurd h (by simp)
      · rename_i db1 folder heqc
        split at h
        · exact absurd h (by simp)
        · rename_i db2 op2 p2 fs2 heqr
          simp only [Except.ok.injEq, Prod.mk.injEq] at h
          obtain ⟨hdb, hop, hp, hfs⟩ := h
          subst hfs
          obtain ⟨hfolder, hdb1⟩ := createFolder_ok _ _ _ _ _ _ heqc
          obtain ⟨hlen2, hflag2⟩ := ih (i + 1) (op + 2) (some folder.id) _ db1 db2 op2 p2 fs2
            heqr (fun hc => absurd hc.2 (by omega))
          refine ⟨by simp [hlen2], ?_⟩
          intro j hj hnm
          cases j with
          | zero =>
            have hget : (folder :: fs2).get ⟨0, hj⟩ = folder := rfl
            rw [hget]
            rw [hfolder]
            show (i == 0 && pn) = true ↔ (i + 0 = 0 ∧ pn = true)
            simp [Nat.add_zero]
          | succ j' =>
            have hj2 : j' < fs2.length := by
              simpa using hj
            have hget : (folder :: fs2).get ⟨j' + 1, hj⟩ = fs2.get ⟨j', hj2⟩ := rfl
            rw [hget]
            rw [hget] at hnm
            by_cases hface : fs2.get ⟨j', hj2⟩ = folder
            · constructor
              · intro hfl
                have hi0 : i = 0 ∧ pn = true := by
                  rw [hface, hfolder] at hfl
                  have hfl2 : (i == 0 && pn) = true := hfl
                  simp only [Bool.and_eq_true, beq_iff_eq] at hfl2
                  exact ⟨hfl2.1, hfl2.2⟩
                have hpnone : p = none := hpre ⟨hi0.2, hi0.1⟩
                have hsp := processFolders_some_parent faults ownerID pn rest _ _ folder.id _
                  _ _ _ _ _ heqr (fs2.get ⟨j', hj2⟩) (List.get_mem fs2 j' hj2)
                rw [hface, hfolder] at hsp
                exact absurd hpnone hsp
              · intro hc
                exact absurd hc.1 (by omega)
            · have hnm1 : fs2.get ⟨j', hj2⟩ ∉ db1.folders := by
                rw [hdb1]
                intro hmem1
                rcases List.mem_append.mp hmem1 with hm | hm
                · exact hnm hm
                · exact hface (List.mem_singleton.mp hm)
              have hiff := hflag2 j' hj2 hnm1
              constructor
              · intro hfl
                exact absurd (hiff.mp hfl).1 (by omega)
              · intro hc
                exact absurd hc.1 (by omega)

/-- C5: in every successful run the collected folder list has one entry per
folder segment, and every folder the run created (one not already present in
the caller's state) carries isRoot true exactly when it stands for the first
segment and the caller supplied no parentFolderId; created folders of later
segments, or any folder created when a parent was supplied, have isRoot
false. -/
theorem c5_root_flag_first_segment_only (faults : Faults) (db : DB)
    (params : ProcessUploadParams) (db' : DB) (res : ProcessUploadResult)
    (h : ProcessUploadComplete faults db params = (db', Except.ok res)) :
    res.folders.length = (parsePath params.relativePath).length - 1 ∧
    (∀ j (hj : j < res.folders.length), res.folders.get ⟨j, hj⟩ ∉ db.folders →
      ((res.folders.get ⟨j, hj⟩).isRootFolder = true ↔
        (j = 0 ∧ params.parentFolderID = none))) := by
  simp only [ProcessUploadComplete] at h
  split at h
  · simp only [Prod.mk.injEq] at h; exact absurd h.2 (by simp)
  · split at h
    · simp only [Prod.mk.injEq] at h; exact absurd h.2 (by simp)
    · rename_i p ps heqpp
      split at h
      · simp only [Prod.mk.injEq] at h; exact absurd h.2 (by simp)
      · rename_i db1 op1 cp fs heqpf
        split at h
        · simp only [Prod.mk.injEq] at h; exact absurd h.2 (by simp)
        · rename_i db2 doc heqcd
          split at h
          · simp only [Prod.mk.injEq] at h; exact absurd h.2 (by simp)
          · rename_i db3 att heqca
            split at h
            · simp only [Prod.mk.injEq] at h; exact absurd h.2 (by simp)
            · simp only [Prod.mk.injEq, Except.ok.injEq] at h
              obtain ⟨hdb', hres⟩ := h
              subst hres
              obtain ⟨hlen, hflag⟩ := processFolders_created_root_flag faults params.ownerID
                (params.parentFolderID == none) ((p :: ps).dropLast) 0 1 params.parentFolderID
                "" db db1 op1 cp fs heqpf
                (fun hc => by simpa using hc.1)
              constructor
              · show fs.length = _
                rw [heqpp, hlen]
                simp [List.length_dropLast]
              · intro j hj hnm
                refine (hflag j hj hnm).trans ?_
                constructor
                · intro hc
                  refine ⟨by omega, by simpa using hc.2⟩
                · intro hc
                  refine ⟨by omega, by simpa using hc.2⟩

theorem c5_root_flag_first_segment_only_witness :
    ({ document :=
        { id := 2, title := "f", type := DocumentType.General, folderID := some 1,
          registrantID := some 100, status := DocumentStatus.Draft },
       attachment :=
        { id := 3, documentID := 2, fileName := "f.txt", filePath := "k", fileSize := 5,
          fileType := "t", version := 1, isCurrent := true, uploadedBy := some 100 },
       folders :=
        [{ id := 0, name := "A", path := "A", isRootFolder := true, parentFolderID := none,
           ownerID := 100 },
         { id := 1, name := "B", path := "A/B", isRootFolder := false, parentFolderID := some 0,
           ownerID := 100 }] } : ProcessUploadResult).folders.length
      = (parsePath "A/B/f.txt").length - 1 :=
  (c5_root_flag_first_segment_only noFaults DB.empty
    { relativePath := "A/B/f.txt", parentFolderID := none, ownerID := 100,
      filePath := "k", fileSize := 5, fileType := "t", uploadID := "u" }
    { folders :=
        [{ id := 0, name := "A", path := "A", isRootFolder := true, parentFolderID := none,
           ownerID := 100 },
         { id := 1, name := "B", path := "A/B", isRootFolder := false, parentFolderID := some 0,
           ownerID := 100 }],
      documents :=
        [{ id := 2, title := "f", type := DocumentType.General, folderID := some 1,
           registrantID := some 100, status := DocumentStatus.Draft }],
      attachments :=
        [{ id := 3, documentID := 2, fileName := "f.txt", filePath := "k", fileSize := 5,
           fileType := "t", version := 1, isCurrent := true, uploadedBy := some 100 }],
      nextID := 4 }
    { document :=
        { id := 2, title := "f", type := DocumentType.General, folderID := some 1,
          registrantID := some 100, status := DocumentStatus.Draft },
      attachment :=
        { id := 3, documentID := 2, fileName := "f.txt", filePath := "k", fileSize := 5,
          fileType := "t", version := 1, isCurrent := true, uploadedBy := some 100 },
      folders :=
        [{ id := 0, name := "A", path := "A", isRootFolder := true, parentFolderID := none,
           ownerID := 100 },
         { id := 1, name := "B", path := "A/B", isRootFolder := false, parentFolderID := some 0,
           ownerID := 100 }] }
    (by decide)).1

theorem mkChain_length (ownerID : Nat) (pn : Bool) (names : List String) :
    ∀ (i : Nat) (p : Option Nat) (path : String) (nid : Nat),
      (mkChain ownerID pn names i p path nid).length = names.length := by
  induction names with
  | nil => intro i p path nid; rfl
  | cons n rest ih =>
    intro i p path nid
    simp only [mkChain, List.length_cons, ih]

theorem processFolders_creates_chain (ownerID : Nat) (pn : Bool) (names : List String) :
    ∀ (i op : Nat) (p : Option Nat) (path : String) (db : DB),
    FreshOK db → PValid p db.nextID →
    (∀ f ∈ db.folders, f.parentFolderID ≠ p) →
    processFolders noFaults ownerID pn names i op p path db
      = Except.ok
          ({ db with
             folders := db.folders ++ mkChain ownerID pn names i p path db.nextID,
             nextID := db.nextID + names.length },
           op + 2 * names.length,
           chainLastParent p db.nextID names.length,
           mkChain ownerID pn names i p path db.nextID) := by
  induction names with
  | nil =>
    intro i op p path db _ _ _
    simp [processFolders, mkChain, chainLastParent]
  | cons n rest ih =>
    intro i op p path db hfresh hpv hnp
    have hnomatch : ∀ f ∈ db.folders, ¬FolderMatches n p ownerID f = true := by
      intro f hf hmatch
      simp only [FolderMatches, Bool.and_eq_true, beq_iff_eq] at hmatch
      exact hnp f hf hmatch.1.2
    have hfind : FindFolderByNameAndParent noFaults op db n p ownerID = Except.ok none := by
      simp only [FindFolderByNameAndParent, noFaults]
      rw [if_neg (by simp)]
      rw [List.find?_eq_none.mpr hnomatch]
    have hcreate : CreateFolder noFaults (op + 1) db
        { id := 0, name := n, path := extendPath path n, isRootFolder := i == 0 && pn,
          parentFolderID := p, ownerID := ownerID }
        = Except.ok
            ({ db with
                folders := db.folders ++
                  [{ id := db.nextID, name := n, path := extendPath path n,
                     isRootFolder := i == 0 && pn, parentFolderID := p, ownerID := ownerID }],
                nextID := db.nextID + 1 },
             { id := db.nextID, name := n, path := extendPath path n,
               isRootFolder := i == 0 && pn, parentFolderID := p, ownerID := ownerID }) := by
      simp only [CreateFolder, noFaults]
      rw [if_neg (by simp), if_neg ?hcond]
      case hcond =>
        simp only [Bool.or_eq_true, decide_eq_true_eq, not_or]
        refine ⟨by simp, ?_⟩
        intro hany
        rw [List.any_eq_true] at hany
        obtain ⟨f, hf, hm⟩ := hany
        exact hnomatch f hf hm
    have hfresh1 : FreshOK { db with
        folders := db.folders ++
          [{ id := db.nextID, name := n, path := extendPath path n,
             isRootFolder := i == 0 && pn, parentFolderID := p, ownerID := ownerID }],
        nextID := db.nextID + 1 } := by
      intro f hf j hj
      simp only [List.mem_append, List.mem_singleton] at hf
      rcases hf with hf | hf
      · exact Nat.lt_succ_of_lt (hfresh f hf j hj)
      · subst hf
        simp only at hj
        exact Nat.lt_succ_of_lt (hpv j hj)
    have hnp1 : ∀ f ∈ ({ db with
        folders := db.folders ++
          [{ id := db.nextID, name := n, path := extendPath path n,
             isRootFolder := i == 0 && pn, parentFolderID := p, ownerID := ownerID }],
        nextID := db.nextID + 1 } : DB).folders,
        f.parentFolderID ≠ some db.nextID := by
      intro f hf hcontra
      simp only [List.mem_append, List.mem_singleton] at hf
      rcases hf with hf | hf
      · exact absurd (hfresh f hf db.nextID hcontra) (Nat.lt_irrefl db.nextID)
      · subst hf
        simp only at hcontra
        exact absurd (hpv db.nextID hcontra) (Nat.lt_irrefl db.nextID)
    have hpv1 : PValid (some db.nextID) (db.nextID + 1) := by
      intro q hq
      rw [Option.some.injEq] at hq
      exact hq ▸ Nat.lt_succ_self db.nextID
    have hlast : chainLastParent (some db.nextID) (db.nextID + 1) rest.length
        = chainLastParent p db.nextID (rest.length + 1) := by
      by_cases h0 : rest.length = 0
      · simp [chainLastParent, h0]
      · simp only [chainLastParent, if_neg h0, if_neg (by omega : ¬rest.length + 1 = 0)]
        congr 1
        omega
    simp only [processFolders, hfind, hcreate,
      ih (i + 1) (op + 2) (some db.nextID) (extendPath path n)
        { db with
          folders := db.folders ++
            [{ id := db.nextID, name := n, path := extendPath path n,
               isRootFolder := i == 0 && pn, parentFolderID := p, ownerID := ownerID }],
          nextID := db.nextID + 1 }
        hfresh1 hpv1 hnp1,
      mkChain, List.length_cons, List.append_assoc, List.singleton_append,
      Except.ok.injEq, Prod.mk.injEq, DB.mk.injEq, hlast]
    refine ⟨⟨trivial, trivial, trivial, by omega⟩, by omega, trivial⟩

theorem processFolders_finds_chain (ownerID : Nat) (pn : Bool) (names : List String) :
    ∀ (i op : Nat) (p : Option Nat) (path : String) (nid : Nat) (db : DB) (pre : List Folder),
    db.folders = pre ++ mkChain ownerID pn names i p path nid →
    PValid p nid →
    (∀ f ∈ pre, f.parentFolderID ≠ p) →
    (∀ f ∈ pre, ∀ j, f.parentFolderID = some j → j < nid) →
    processFolders noFaults ownerID pn names i op p path db
      = Except.ok (db, op + names.length, chainLastParent p nid names.length,
          mkChain ownerID pn names i p path nid) := by
  induction names with
  | nil =>
    intro i op p path nid db pre hdb hpv hnp hbound
    simp [processFolders, mkChain, chainLastParent]
  | cons n rest ih =>
    intro i op p path nid db pre hdb hpv hnp hbound
    simp only [mkChain] at hdb
    have hmc : FolderMatches n p ownerID
        { id := nid, name := n, path := extendPath path n, isRootFolder := i == 0 && pn,
          parentFolderID := p, ownerID := ownerID } = true := by
      simp [FolderMatches]
    have hpre2 : ∀ f ∈ pre, ¬FolderMatches n p ownerID f = true := by
      intro f hf hm
      simp only [FolderMatches, Bool.and_eq_true, beq_iff_eq] at hm
      exact hnp f hf hm.1.2
    have hfind : FindFolderByNameAndParent noFaults op db n p ownerID
        = Except.ok (some
            { id := nid, name := n, path := extendPath path n,
              isRootFolder := i == 0 && pn, parentFolderID := p, ownerID := ownerID }) := by
      simp only [FindFolderByNameAndParent, noFaults]
      rw [if_neg (by simp), hdb, List.find?_append, List.find?_eq_none.mpr hpre2,
        List.find?_cons, hmc]
      exact rfl
    have h1 : db.folders = (pre ++
        [{ id := nid, name := n, path := extendPath path n, isRootFolder := i == 0 && pn,
           parentFolderID := p, ownerID := ownerID }]) ++
        mkChain ownerID pn rest (i + 1) (some nid) (extendPath path n) (nid + 1) := by
      rw [hdb]
      simp [List.append_assoc]
    have h2 : PValid (some nid) (nid + 1) := by
      intro q hq
      rw [Option.some.injEq] at hq
      omega
    have h3 : ∀ f ∈ pre ++
        [{ id := nid, name := n, path := extendPath path n, isRootFolder := i == 0 && pn,
           parentFolderID := p, ownerID := ownerID }],
        f.parentFolderID ≠ some nid := by
      intro f hf hcontra
      rcases List.mem_append.mp hf with hf | hf
      · exact absurd (hbound f hf nid hcontra) (Nat.lt_irrefl nid)
      · rw [List.mem_singleton] at hf
        subst hf
        simp only at hcontra
        exact absurd (hpv nid hcontra) (Nat.lt_irrefl nid)
    have h4 : ∀ f ∈ pre ++
        [{ id := nid, name := n, path := extendPath path n, isRootFolder := i == 0 && pn,
           parentFolderID := p, ownerID := ownerID }],
        ∀ j, f.parentFolderID = some j → j < nid + 1 := by
      intro f hf j hj
      rcases List.mem_append.mp hf with hf | hf
      · exact Nat.lt_succ_of_lt (hbound f hf j hj)
      · rw [List.mem_singleton] at hf
        subst hf
        simp only at hj
        exact Nat.lt_succ_of_lt (hpv j hj)
    have hlast2 : chainLastParent (some nid) (nid + 1) rest.length
        = chainLastParent p nid (rest.length + 1) := by
      by_cases h0 : rest.length = 0
      · simp [chainLastParent, h0]
      · simp only [chainLastParent, if_neg h0, if_neg (by omega : ¬rest.length + 1 = 0)]
        congr 1
        omega
    simp only [processFolders, hfind,
      ih (i + 1) (op + 1) (some nid) (extendPath path n) (nid + 1) db
        (pre ++
          [{ id := nid, name := n, path := extendPath path n, isRootFolder := i == 0 && pn,
             parentFolderID := p, ownerID := ownerID }]) h1 h2 h3 h4,
      mkChain, List.length_cons, Except.ok.injEq, Prod.mk.injEq, hlast2]
    exact ⟨trivial, by omega, trivial⟩

theorem processUploadComplete_noFaults_ok (db : DB) (params : ProcessUploadParams)
    (p : String) (ps : List String) (db1 : DB) (op1 : Nat) (cp : Option Nat)
    (fs : List Folder)
    (hp : parsePath params.relativePath = p :: ps)
    (hpf : processFolders noFaults params.ownerID (params.parentFolderID == none)
      ((p :: ps).dropLast) 0 1 params.parentFolderID "" db = Except.ok (db1, op1, cp, fs)) :
    ProcessUploadComplete noFaults db params =
      ({ db1 with
         documents := db1.documents ++
           [{ id := db1.nextID,
              title := trimSuffix ((p :: ps).getLast (List.cons_ne_nil p ps))
                (filepathExt ((p :: ps).getLast (List.cons_ne_nil p ps))),
              type := DocumentType.General, folderID := cp,
              registrantID := some params.ownerID, status := DocumentStatus.Draft }],
         attachments := db1.attachments ++
           [{ id := db1.nextID + 1, documentID := db1.nextID,
              fileName := (p :: ps).getLast (List.cons_ne_nil p ps),
              filePath := params.filePath, fileSize := params.fileSize,
              fileType := params.fileType, version := 1, isCurrent := true,
              uploadedBy := some params.ownerID }],
         nextID := db1.nextID + 2 },
       Except.ok
        { document :=
            { id := db1.nextID,
              title := trimSuffix ((p :: ps).getLast (List.cons_ne_nil p ps))
                (filepathExt ((p :: ps).getLast (List.cons_ne_nil p ps))),
              type := DocumentType.General, folderID := cp,
              registrantID := some params.ownerID, status := DocumentStatus.Draft },
          attachment :=
            { id := db1.nextID + 1, documentID := db1.nextID,
              fileName := (p :: ps).getLast (List.cons_ne_nil p ps),
              filePath := params.filePath, fileSize := params.fileSize,
              fileType := params.fileType, version := 1, isCurrent := true,
              uploadedBy := some params.ownerID },
          folders := fs }) := by
  simp only [ProcessUploadComplete, noFaults, hp, hpf, CreateDocument, CreateAttachment,
    CommitTx]
  simp

/-- C3: processing the same relativePath twice for the same owner with no
parentFolderId, the second run starting from the state the first run
produced, creates exactly one folder per folder segment in total: the first
run lays the chain down from the empty store, the second run succeeds,
finds and returns exactly the folders of the first run, and adds no folder. -/
theorem c3_folder_creation_idempotent (relativePath : String) (ownerID : Nat)
    (fp ft uid : String) (fsz : Int) (db1 db2 : DB)
    (r1 r2 : Except UploadError ProcessUploadResult)
    (hne : parsePath relativePath ≠ [])
    (h1 : ProcessUploadComplete noFaults DB.empty
      { relativePath := relativePath, parentFolderID := none, ownerID := ownerID,
        filePath := fp, fileSize := fsz, fileType := ft, uploadID := uid } = (db1, r1))
    (h2 : ProcessUploadComplete noFaults db1
      { relativePath := relativePath, parentFolderID := none, ownerID := ownerID,
        filePath := fp, fileSize := fsz, fileType := ft, uploadID := uid } = (db2, r2)) :
    db2.folders = db1.folders ∧
    db1.folders.length = (parsePath relativePath).length - 1 ∧
    ∃ res1 res2, r1 = Except.ok res1 ∧ r2 = Except.ok res2 ∧
      res2.folders = res1.folders := by
  obtain ⟨p, ps, hp⟩ : ∃ p ps, parsePath relativePath = p :: ps := by
    rcases hpp : parsePath relativePath with _ | ⟨p, ps⟩
    · exact absurd hpp hne
    · exact ⟨p, ps, rfl⟩
  have hchain := processFolders_creates_chain ownerID ((none : Option Nat) == none)
    ((p :: ps).dropLast) 0 1 none "" DB.empty
    (fun f hf => absurd hf (List.not_mem_nil f))
    (fun q hq => Option.noConfusion hq)
    (fun f hf => absurd hf (List.not_mem_nil f))
  have hrun1 := processUploadComplete_noFaults_ok DB.empty
    { relativePath := relativePath, parentFolderID := none, ownerID := ownerID,
      filePath := fp, fileSize := fsz, fileType := ft, uploadID := uid }
    p ps _ _ _ _ hp hchain
  rw [hrun1] at h1
  simp only [Prod.mk.injEq] at h1
  obtain ⟨hdb1, hr1⟩ := h1
  have hfold1 : db1.folders
      = mkChain ownerID ((none : Option Nat) == none) ((p :: ps).dropLast) 0 none "" 0 := by
    rw [← hdb1]
    exact rfl
  have hfind := processFolders_finds_chain ownerID ((none : Option Nat) == none)
    ((p :: ps).dropLast) 0 1 none "" 0 db1 []
    (by rw [hfold1]; exact rfl)
    (fun q hq => Option.noConfusion hq)
    (fun f hf => absurd hf (List.not_mem_nil f))
    (fun f hf => absurd hf (List.not_mem_nil f))
  have hrun2 := processUploadComplete_noFaults_ok db1
    { relativePath := relativePath, parentFolderID := none, ownerID := ownerID,
      filePath := fp, fileSize := fsz, fileType := ft, uploadID := uid }
    p ps _ _ _ _ hp hfind
  rw [hrun2] at h2
  simp only [Prod.mk.injEq] at h2
  obtain ⟨hdb2, hr2⟩ := h2
  refine ⟨?_, ?_, ?_⟩
  · rw [← hdb2]
  · rw [hfold1, mkChain_length, hp]
    exact List.length_dropLast _
  · exact ⟨_, _, hr1.symm, hr2.symm, rfl⟩

theorem c3_folder_creation_idempotent_witness :
    ({ folders :=
        [{ id := 0, name := "Docs", path := "Docs", isRootFolder := true,
           parentFolderID := none, ownerID := 100 }],
       documents :=
        [{ id := 1, title := "a", type := DocumentType.General, folderID := some 0,
           registrantID := some 100, status := DocumentStatus.Draft },
         { id := 3, title := "a", type := DocumentType.General, folderID := some 0,
           registrantID := some 100, status := DocumentStatus.Draft }],
       attachments :=
        [{ id := 2, documentID := 1, fileName := "a.txt", filePath := "k", fileSize := 5,
           fileType := "t", version := 1, isCurrent := true, uploadedBy := some 100 },
         { id := 4, documentID := 3, fileName := "a.txt", filePath := "k", fileSize := 5,
           fileType := "t", version := 1, isCurrent := true, uploadedBy := some 100 }],
       nextID := 5 } : DB).folders =
      ({ folders :=
          [{ id := 0, name := "Docs", path := "Docs", isRootFolder := true,
             parentFolderID := none, ownerID := 100 }],
         documents :=
          [{ id := 1, title := "a", type := DocumentType.General, folderID := some 0,
             registrantID := some 100, status := DocumentStatus.Draft }],
         attachments :=
          [{ id := 2, documentID := 1, fileName := "a.txt", filePath := "k", fileSize := 5,
             fileType := "t", version := 1, isCurrent := true, uploadedBy := some 100 }],
         nextID := 3 } : DB).folders ∧
    ({ folders :=
        [{ id := 0, name := "Docs", path := "Docs", isRootFolder := true,
           parentFolderID := none, ownerID := 100 }],
       documents :=
        [{ id := 1, title := "a", type := DocumentType.General, folderID := some 0,
           registrantID := some 100, status := DocumentStatus.Draft }],
       attachments :=
        [{ id := 2, documentID := 1, fileName := "a.txt", filePath := "k", fileSize := 5,
           fileType := "t", version := 1, isCurrent := true, uploadedBy := some 100 }],
       nextID := 3 } : DB).folders.length = (parsePath "Docs/a.txt").length - 1 ∧
    ∃ res1 res2,
      (Except.ok
        { document :=
            { id := 1, title := "a", type := DocumentType.General, folderID := some 0,
              registrantID := some 100, status := DocumentStatus.Draft },
          attachment :=
            { id := 2, documentID := 1, fileName := "a.txt", filePath := "k", fileSize := 5,
              fileType := "t", version := 1, isCurrent := true, uploadedBy := some 100 },
          folders :=
            [{ id := 0, name := "Docs", path := "Docs", isRootFolder := true,
               parentFolderID := none, ownerID := 100 }] }
        : Except UploadError ProcessUploadResult) = Except.ok res1 ∧
      (Except.ok
        { document :=
            { id := 3, title := "a", type := DocumentType.General, folderID := some 0,
              registrantID := some 100, status := DocumentStatus.Draft },
          attachment :=
            { id := 4, documentID := 3, fileName := "a.txt", filePath := "k", fileSize := 5,
              fileType := "t", version := 1, isCurrent := true, uploadedBy := some 100 },
          folders :=
            [{ id := 0, name := "Docs", path := "Docs", isRootFolder := true,
               parentFolderID := none, ownerID := 100 }] }
        : Except UploadError ProcessUploadResult) = Except.ok res2 ∧
      res2.folders = res1.folders :=
  c3_folder_creation_idempotent "Docs/a.txt" 100 "k" "t" "u" 5 _ _ _ _
    (by decide) (by decide) (by decide)

end EDocument
